import Mathlib

/-!
Verification of the `music-organizer` repository (`src/lib.rs`, `src/main.rs`)
against its natural-language specification.

The development shallowly embeds the program: strings are `String`/`List Char`,
paths are lists of components (`PathBuf::push` appends a component), the
filesystem is a `World` record mapping paths to optional file contents and a
set of directories, and every fallible operation returns its partial world
together with an optional abort cause (an I/O error or a panic, matching
Rust's `Result`, `?`, `unwrap` and `expect`).  External collaborators (the
OS directory listing, the id3 tag parser, the thread-rng shuffle) enter as
explicit inputs, exactly as the Rust code receives their results.
-/

namespace MusicOrganizer

/-! ## Name sanitizer (`create_sanitization_regex`, lib.rs:138-140)

The regex is `<?>?:?"?/?\|?\??\*?\x00?` (with `\\` and `\|` escapes): a
concatenation of ten optional literal characters.  Under the regex crate's
leftmost-first semantics each optional is greedy, so at any position the
match consumes the (possibly empty) run of illegal characters appearing in
slot order; `replace_all` deletes every such match, advancing one character
past an empty match. -/

/-- The ten characters the sanitization regex can consume, in the order the
pattern lists them: `< > : " / \ | ? *` and NUL. -/
def illegalChars : List Char :=
  ['<', '>', ':', '"', '/', '\\', '|', '?', '*', Char.ofNat 0]

/-- Whether a character is one of the ten illegal characters. -/
def isIllegal (c : Char) : Bool := illegalChars.contains c

/-- Length (in characters) of the leftmost-first greedy match of the
concatenation of optional literals `slots` against the input: each slot
consumes the next character exactly when it equals the slot's literal. -/
def regexMatchLen : List Char → List Char → Nat
  | _, [] => 0
  | [], _ => 0
  | slot :: slots, c :: cs =>
    if c = slot then regexMatchLen slots cs + 1
    else regexMatchLen slots (c :: cs)

/-- `Regex::replace_all(s, "")` for the sanitization regex: at each position
take the greedy match; delete it when non-empty, otherwise keep the character
and move on (the empty match is replaced by the empty string). -/
def sanitize (s : List Char) : List Char :=
  match s with
  | [] => []
  | c :: cs =>
    let m := regexMatchLen illegalChars (c :: cs)
    if _h : m = 0 then c :: sanitize cs
    else sanitize (List.drop m (c :: cs))
termination_by s.length
decreasing_by
  · simp
  · simp only [List.length_drop, List.length_cons]
    omega

/-- String-level sanitizer, as applied in `group_song_list_by_artist`
(lib.rs:295): `String::from(regex.replace_all(&str, ""))`. -/
def sanitizeStr (s : String) : String := ⟨sanitize s.data⟩


/-! ## Paths and the filesystem world

`PathBuf` is modelled as its list of components; `PathBuf::push` appends one
component.  The filesystem is a map from paths to optional file contents plus
a set of directories; `dirFault` injects the OS failures `fs::create_dir` can
report beyond `AlreadyExists` (permissions, missing parent, ...).  `println!`
calls append structured notices to a log. -/

/-- A filesystem path, as its list of components. -/
abbrev Path := List String

/-- `PathBuf::push`: append one component. -/
def Path.push (p : Path) (s : String) : Path := p ++ [s]

/-- Opaque file contents (`fs::copy` copies them verbatim). -/
abbrev Content := Nat

/-- The `std::io::ErrorKind` values the program distinguishes: it only ever
tests for `AlreadyExists`; everything else is an arbitrary other kind. -/
inductive ErrorKind where
  | alreadyExists
  | notFound
  | permissionDenied
  | otherKind
deriving DecidableEq

/-- A user-visible console notice (`println!` calls in lib.rs). -/
inductive Notice where
  | found (n : Nat)
  | outputDirExists
  | artistDirExists (artist : String)
  | processing (name : String)
  | fileExists (p : Path)
deriving DecidableEq

/-- The filesystem and console state an execution acts on. -/
structure World where
  files : Path → Option Content
  dirs : Path → Bool
  dirFault : Path → Option ErrorKind
  log : List Notice

/-- Point update of a file map. -/
def updateFiles (f : Path → Option Content) (p : Path) (v : Option Content) :
    Path → Option Content :=
  fun q => if q = p then v else f q

/-- `println!`: append a notice to the console log. -/
def logMsg (w : World) (n : Notice) : World := { w with log := w.log ++ [n] }

/-- `fs::create_dir`: an injected fault is reported as-is; otherwise the call
fails with `AlreadyExists` when the directory exists and succeeds (recording
the directory) when it does not. -/
def fsCreateDir (w : World) (p : Path) : Except ErrorKind World :=
  match w.dirFault p with
  | some e => .error e
  | none =>
    if w.dirs p then .error .alreadyExists
    else .ok { w with dirs := fun q => if q = p then true else w.dirs q }

/-- `fs::remove_file`: succeeds exactly when a file exists at the path. -/
def fsRemoveFile (w : World) (p : Path) : Except ErrorKind World :=
  match w.files p with
  | some _ => .ok { w with files := updateFiles w.files p none }
  | none => .error .notFound

/-- `fs::copy`: reads the source file and writes its contents at the
destination. -/
def fsCopy (w : World) (src dst : Path) : Except ErrorKind World :=
  match w.files src with
  | some c => .ok { w with files := updateFiles w.files dst (some c) }
  | none => .error .notFound

/-- `fs::metadata(p).is_ok()`: something (file or directory) exists at `p`. -/
def fsMetadataIsOk (w : World) (p : Path) : Bool :=
  (w.files p).isSome || w.dirs p

/-! ## Directory scanner (`get_songs_from_path`, lib.rs:311-335) -/

/-- What the program observes of one `fs::read_dir` entry: whether
`entry.path().is_file()` holds, and `entry.file_name().to_str()`
(`none` when the OS file name is not valid UTF-8). -/
structure DirEntry where
  isFile : Bool
  nameUtf8 : Option String
deriving DecidableEq

/-- `str::split(".")`: the dot-separated fields, always at least one. -/
def splitDot (s : List Char) : List (List Char) :=
  match s with
  | [] => [[]]
  | c :: cs =>
    if c = '.' then [] :: splitDot cs
    else
      match splitDot cs with
      | [] => [[c]]
      | t :: ts => (c :: t) :: ts

/-- The scanner's filter on a (UTF-8) file name:
`file_name.split(".").last()` compared with `"mp3"`; a `None` last element
would be rejected (unreachable, since `split` always yields an element). -/
def extMatches (name : String) : Bool :=
  match (splitDot name.data).getLast? with
  | some ext => ext = "mp3".data
  | none => false

/-- Result of running the scanner's iterator pipeline: the collected song
paths, or an abnormal termination from one of the `expect` calls. -/
inductive ScanResult where
  | ok (songs : List Path)
  | panicked
deriving DecidableEq

/-- The iterator pipeline of `get_songs_from_path`: each entry result is
`expect`ed (a read error panics); an entry is kept when it is a file and its
name's final dot-delimited component equals `"mp3"`, where converting a
non-UTF-8 name of a file entry panics (`expect`); kept entries contribute
`entry.path()`, the directory path joined with the file name. -/
def scanEntries (dirPath : Path) : List (Except ErrorKind DirEntry) → ScanResult
  | [] => .ok []
  | .error _ :: _ => .panicked
  | .ok entry :: rest =>
    if entry.isFile then
      match entry.nameUtf8 with
      | none => .panicked
      | some name =>
        if extMatches name then
          match scanEntries dirPath rest with
          | .ok songs => .ok (dirPath.push name :: songs)
          | .panicked => .panicked
        else scanEntries dirPath rest
    else scanEntries dirPath rest

/-- Outcome of `get_songs_from_path` as a whole: the `fs::read_dir` error is
propagated with `?`; otherwise the pipeline runs (and may panic). -/
inductive ScanOutcome where
  | ok (songs : List Path)
  | err (e : ErrorKind)
  | panicked
deriving DecidableEq

/-- `get_songs_from_path`, taking the input directory path and the result of
`fs::read_dir` on it. -/
def get_songs_from_path (dirPath : Path)
    (readDir : Except ErrorKind (List (Except ErrorKind DirEntry))) : ScanOutcome :=
  match readDir with
  | .error e => .err e
  | .ok entries =>
    match scanEntries dirPath entries with
    | .ok songs => .ok songs
    | .panicked => .panicked

/-! ## Tag reader (`get_artist_from_file`, lib.rs:304-309) -/

/-- The ways `id3::Tag::read_from_path` can fail (opaque to the program,
which matches any error with `Err(_)`). -/
inductive Id3Error where
  | io
  | corruptTag
  | unsupportedFormat
deriving DecidableEq

/-- What the program observes of a parsed id3 tag: `tag.artist()`, the
artist text frame when present (possibly the empty string). -/
structure Id3Tag where
  artist : Option String
deriving DecidableEq

/-- `get_artist_from_file`, taking the result of the external
`id3::Tag::read_from_path` call on the file. -/
def get_artist_from_file (parse : Except Id3Error Id3Tag) : Option String :=
  match parse with
  | .ok tag => tag.artist
  | .error _ => none

/-! ## Grouper (`group_song_list_by_artist`, lib.rs:288-302)

The `HashMap` is modelled as an association list with the `entry(..)
.or_insert(Vec::new()).push(..)` update; only its key-indexed contents are
observable (Rust's iteration order is arbitrary). -/

/-- The artist label a song is grouped under:
`get_artist_from_file(path).unwrap_or("Unknown")` sanitized.  The tag-reading
of each path is abstracted as an oracle `tags`. -/
def artistLabel (tags : Path → Option String) (p : Path) : String :=
  sanitizeStr ((tags p).getD "Unknown")

/-- `map.entry(k).or_insert(Vec::new()).push(p)` on an association list. -/
def insertSong (m : List (String × List Path)) (k : String) (p : Path) :
    List (String × List Path) :=
  match m with
  | [] => [(k, [p])]
  | (k', v) :: rest =>
    if k' = k then (k', v ++ [p]) :: rest else (k', v) :: insertSong rest k p

/-- `group_song_list_by_artist`: fold the songs into the map, appending each
path to the bucket of its sanitized artist label. -/
def group_song_list_by_artist (tags : Path → Option String) (songs : List Path) :
    List (String × List Path) :=
  songs.foldl (fun m p => insertSong m (artistLabel tags p) p) []

/-- Bucket lookup in the grouped-songs map. -/
def lookupKey (k : String) : List (String × List Path) → Option (List Path)
  | [] => none
  | (k', v) :: rest => if k' = k then some v else lookupKey k rest

/-! ## Output copier (`create_output_dir`, `output_grouped_songs`,
`output_shuffled_songs`, lib.rs:198-286) -/

/-- Why an execution stopped early: a propagated `std::io::Error` (`?` /
`return Err(e)`), or a panic from `expect`/`unwrap`. -/
inductive Abort where
  | err (e : ErrorKind)
  | panicked
deriving DecidableEq

/-- `create_output_dir` (lib.rs:198-210): `fs::create_dir` on the output
directory; `AlreadyExists` prints a notice and counts as success, any other
error is returned. -/
def create_output_dir (w : World) (outputDir : Path) : Except ErrorKind World :=
  match fsCreateDir w outputDir with
  | .error .alreadyExists => .ok (logMsg w .outputDirExists)
  | .error e => .error e
  | .ok w' => .ok w'

/-- The per-song body of the `output_grouped_songs` loop (lib.rs:262-282):
print the file name, build `input_dir/file_name` and `new_dir_path/file_name`,
then copy according to the existence/overwrite policy.  `path.file_name()`
on a component-less path makes the `expect` panic. -/
def processSongOrganize (overwrite : Bool) (inputDir newDirPath : Path)
    (w : World) (path : Path) : World × Option Abort :=
  match path.getLast? with
  | none => (w, some .panicked)
  | some file_name =>
    let w1 := logMsg w (.processing file_name)
    let input_path := inputDir.push file_name
    let output_path := newDirPath.push file_name
    if fsMetadataIsOk w1 output_path then
      if overwrite then
        match fsRemoveFile w1 output_path with
        | .error e => (w1, some (.err e))
        | .ok w2 =>
          match fsCopy w2 input_path output_path with
          | .error e => (w2, some (.err e))
          | .ok w3 => (w3, none)
      else (logMsg w1 (.fileExists output_path), none)
    else
      match fsCopy w1 input_path output_path with
      | .error e => (w1, some (.err e))
      | .ok w2 => (w2, none)

/-- The inner `for path in paths` loop of `output_grouped_songs`: process the
songs of one bucket in order, stopping at the first abort. -/
def processSongsOrganize (overwrite : Bool) (inputDir newDirPath : Path) :
    World → List Path → World × Option Abort
  | w, [] => (w, none)
  | w, p :: rest =>
    match processSongOrganize overwrite inputDir newDirPath w p with
    | (w', none) => processSongsOrganize overwrite inputDir newDirPath w' rest
    | (w', some a) => (w', some a)

/-- The outer `for (artist, paths) in grouped_songs` loop of
`output_grouped_songs` (lib.rs:251-283): create the artist directory
(`AlreadyExists` prints a notice and continues, any other error returns),
then process the bucket's songs. -/
def processGroups (overwrite : Bool) (inputDir outputDir : Path) :
    World → List (String × List Path) → World × Option Abort
  | w, [] => (w, none)
  | w, (artist, paths) :: rest =>
    match fsCreateDir w (outputDir.push artist) with
    | .error .alreadyExists =>
      match processSongsOrganize overwrite inputDir (outputDir.push artist)
          (logMsg w (.artistDirExists artist)) paths with
      | (w2, none) => processGroups overwrite inputDir outputDir w2 rest
      | (w2, some a) => (w2, some a)
    | .error e => (w, some (.err e))
    | .ok w1 =>
      match processSongsOrganize overwrite inputDir (outputDir.push artist) w1 paths with
      | (w2, none) => processGroups overwrite inputDir outputDir w2 rest
      | (w2, some a) => (w2, some a)

/-- `output_grouped_songs` (lib.rs:246-286): ensure the output directory,
then run the bucket loop. -/
def output_grouped_songs (overwrite : Bool) (inputDir outputDir : Path)
    (groups : List (String × List Path)) (w : World) : World × Option Abort :=
  match create_output_dir w outputDir with
  | .error e => (w, some (.err e))
  | .ok w1 => processGroups overwrite inputDir outputDir w1 groups

/-- `format!("{} - {}", i, file_name)`. -/
def decFormat (i : Nat) (name : String) : String := Nat.repr i ++ " - " ++ name

/-- `path.getLastD ""`: the file name of a scanner-produced path (all such
paths end in a component). -/
def fileNameD (p : Path) : String := p.getLastD ""

/-- The per-song body of the `output_shuffled_songs` loop (lib.rs:217-237):
print the file name, build `output_dir/"{i} - {file_name}"`, then copy the
source path there under the existence/overwrite policy. -/
def processSongShuffle (overwrite : Bool) (outputDir : Path) (i : Nat)
    (w : World) (path : Path) : World × Option Abort :=
  match path.getLast? with
  | none => (w, some .panicked)
  | some file_name =>
    let w1 := logMsg w (.processing file_name)
    let output_song_path := outputDir.push (decFormat i file_name)
    if fsMetadataIsOk w1 output_song_path then
      if overwrite then
        match fsRemoveFile w1 output_song_path with
        | .error e => (w1, some (.err e))
        | .ok w2 =>
          match fsCopy w2 path output_song_path with
          | .error e => (w2, some (.err e))
          | .ok w3 => (w3, none)
      else (logMsg w1 (.fileExists output_song_path), none)
    else
      match fsCopy w1 path output_song_path with
      | .error e => (w1, some (.err e))
      | .ok w2 => (w2, none)

/-- The `for (i, path) in shuffled_songs.into_iter().enumerate()` loop of
`output_shuffled_songs`, carrying the enumeration index. -/
def processSongsShuffle (overwrite : Bool) (outputDir : Path) :
    Nat → World → List Path → World × Option Abort
  | _, w, [] => (w, none)
  | i, w, p :: rest =>
    match processSongShuffle overwrite outputDir i w p with
    | (w', none) => processSongsShuffle overwrite outputDir (i + 1) w' rest
    | (w', some a) => (w', some a)

/-- `output_shuffled_songs` (lib.rs:212-240): ensure the output directory,
then run the enumerated song loop from index 0. -/
def output_shuffled_songs (overwrite : Bool) (outputDir : Path)
    (shuffled_songs : List Path) (w : World) : World × Option Abort :=
  match create_output_dir w outputDir with
  | .error e => (w, some (.err e))
  | .ok w1 => processSongsShuffle overwrite outputDir 0 w1 shuffled_songs

/-! ## Top-level pipelines (`organize_songs`, `shuffle_songs`,
lib.rs:163-196) -/

/-- Outcome of a whole run: normal completion, a returned
`std::io::Result::Err`, or a panic. -/
inductive RunOutcome where
  | ok (w : World)
  | err (e : ErrorKind) (w : World)
  | panicked

/-- `organize_songs` (lib.rs:163-170): scan (`.unwrap()` panics on a scan
error), print the count, group by artist, and copy.  `parses` supplies the
external id3 parse result for each path. -/
def organize_songs (overwrite : Bool) (inputDir outputDir : Path)
    (readDir : Except ErrorKind (List (Except ErrorKind DirEntry)))
    (parses : Path → Except Id3Error Id3Tag) (w : World) : RunOutcome :=
  match get_songs_from_path inputDir readDir with
  | .err _ => .panicked
  | .panicked => .panicked
  | .ok songs =>
    let w1 := logMsg w (.found songs.length)
    let groups := group_song_list_by_artist (fun p => get_artist_from_file (parses p)) songs
    match output_grouped_songs overwrite inputDir outputDir groups w1 with
    | (w2, none) => .ok w2
    | (w2, some (.err e)) => .err e w2
    | (_, some .panicked) => .panicked

/-- `shuffle_songs` (lib.rs:188-196): scan (`.unwrap()` panics on a scan
error), print the count, shuffle with the thread rng (supplied as the
external `shuffler`), and copy.  -/
def shuffle_songs (overwrite : Bool) (inputDir outputDir : Path)
    (readDir : Except ErrorKind (List (Except ErrorKind DirEntry)))
    (shuffler : List Path → List Path) (w : World) : RunOutcome :=
  match get_songs_from_path inputDir readDir with
  | .err _ => .panicked
  | .panicked => .panicked
  | .ok songs =>
    let w1 := logMsg w (.found songs.length)
    match output_shuffled_songs overwrite outputDir (shuffler songs) w1 with
    | (w2, none) => .ok w2
    | (w2, some (.err e)) => .err e w2
    | (_, some .panicked) => .panicked

/-- The output paths the shuffle loop writes, starting at index `i`:
`output_dir/"{i+k} - {file_name k}"`. -/
def shuffleOutPaths (outputDir : Path) : Nat → List Path → List Path
  | _, [] => []
  | i, p :: rest =>
    outputDir.push (decFormat i (fileNameD p)) :: shuffleOutPaths outputDir (i + 1) rest

/-- The file map after the shuffle loop writes every song's contents at its
indexed output path. -/
def shuffleWrites (outputDir : Path) (f : Path → Option Content) :
    Nat → List Path → (Path → Option Content)
  | _, [] => f
  | i, p :: rest =>
    shuffleWrites outputDir
      (updateFiles f (outputDir.push (decFormat i (fileNameD p))) (f p)) (i + 1) rest

/-- Structural recursion form of the decimal digit list `Nat.toDigits 10`. -/
def decDigits (n : Nat) : List Char :=
  if _h : n < 10 then [Nat.digitChar n]
  else decDigits (n / 10) ++ [Nat.digitChar (n % 10)]
decreasing_by
  have : 0 < n := by omega
  exact Nat.div_lt_self this (by omega)

/-! ## Sanitizer lemmas -/

theorem isIllegal_iff (c : Char) : isIllegal c = true ↔ c ∈ illegalChars := by
  simp [isIllegal, List.contains, List.elem_iff]

theorem regexMatchLen_eq_zero (slots : List Char) (c : Char) (cs : List Char)
    (h : c ∉ slots) : regexMatchLen slots (c :: cs) = 0 := by
  induction slots with
  | nil => rfl
  | cons slot slots ih =>
    have hne : c ≠ slot := fun hc => h (hc ▸ List.mem_cons_self _ _)
    simp only [regexMatchLen, if_neg hne]
    exact ih (fun hc => h (List.mem_cons_of_mem _ hc))

theorem regexMatchLen_pos (slots : List Char) (c : Char) (cs : List Char)
    (h : c ∈ slots) : 1 ≤ regexMatchLen slots (c :: cs) := by
  induction slots with
  | nil => cases h
  | cons slot slots ih =>
    by_cases hc : c = slot
    · simp [regexMatchLen, hc]
    · have : c ∈ slots := by
        cases List.mem_cons.mp h with
        | inl h' => exact absurd h' hc
        | inr h' => exact h'
      simp only [regexMatchLen, if_neg hc]
      exact ih this

theorem regexMatchLen_le :
    ∀ (slots input : List Char), regexMatchLen slots input ≤ input.length := by
  intro slots
  induction slots with
  | nil => intro input; cases input <;> simp [regexMatchLen]
  | cons slot slots ih =>
    intro input
    cases input with
    | nil => simp [regexMatchLen]
    | cons c cs =>
      by_cases hc : c = slot
      · simp only [regexMatchLen, if_pos hc, List.length_cons]
        have := ih cs
        omega
      · simp only [regexMatchLen, if_neg hc]
        exact ih (c :: cs)

theorem mem_take_regexMatchLen :
    ∀ (slots input : List Char) (c : Char),
      c ∈ input.take (regexMatchLen slots input) → c ∈ slots := by
  intro slots
  induction slots with
  | nil =>
    intro input c hc
    cases input <;> simp [regexMatchLen] at hc
  | cons slot slots ih =>
    intro input c hc
    cases input with
    | nil => simp [regexMatchLen] at hc
    | cons d ds =>
      by_cases hd : d = slot
      · simp only [regexMatchLen, if_pos hd, List.take_succ_cons] at hc
        cases List.mem_cons.mp hc with
        | inl h' => exact h' ▸ hd ▸ List.mem_cons_self _ _
        | inr h' => exact List.mem_cons_of_mem _ (ih ds c h')
      · simp only [regexMatchLen, if_neg hd] at hc
        exact List.mem_cons_of_mem _ (ih (d :: ds) c hc)

/-- The sanitizer is exactly a filter dropping the illegal characters. -/
theorem sanitize_eq_filter (s : List Char) :
    sanitize s = s.filter (fun c => !(isIllegal c)) := by
  suffices h : ∀ n (s : List Char), s.length = n →
      sanitize s = s.filter (fun c => !(isIllegal c)) from h s.length s rfl
  intro n
  induction n using Nat.strong_induction_on with
  | _ n ih =>
    intro s hn
    cases s with
    | nil => simp [sanitize]
    | cons c cs =>
      by_cases hm : regexMatchLen illegalChars (c :: cs) = 0
      · have hc : c ∉ illegalChars := fun hmem =>
          absurd hm (by have := regexMatchLen_pos illegalChars c cs hmem; omega)
        have hcI : isIllegal c = false := by
          cases h2 : isIllegal c with
          | false => rfl
          | true => exact absurd ((isIllegal_iff c).mp h2) hc
        have hlt : cs.length < n := by simp at hn; omega
        rw [sanitize]
        simp only [hm]
        rw [dif_pos trivial, List.filter_cons, hcI]
        simp only [Bool.not_false, if_pos]
        rw [ih cs.length hlt cs rfl]
      · rw [sanitize]
        rw [dif_neg hm]
        set m := regexMatchLen illegalChars (c :: cs) with hmdef
        have hm1 : 1 ≤ m := Nat.one_le_iff_ne_zero.mpr hm
        have hfilter_take : (List.take m (c :: cs)).filter (fun c => !(isIllegal c)) = [] := by
          rw [List.filter_eq_nil_iff]
          intro a ha
          have : a ∈ illegalChars := mem_take_regexMatchLen illegalChars (c :: cs) a (hmdef ▸ ha)
          simp [(isIllegal_iff a).mpr this]
        have hsplit : (c :: cs) = List.take m (c :: cs) ++ List.drop m (c :: cs) :=
          (List.take_append_drop m (c :: cs)).symm
        have hlt : (List.drop m (c :: cs)).length < n := by
          rw [List.length_drop]
          simp only [List.length_cons] at hn ⊢
          omega
        rw [ih _ hlt _ rfl]
        conv_rhs => rw [hsplit]
        rw [List.filter_append, hfilter_take, List.nil_append]

theorem decDigits_lt {n : Nat} (h : n < 10) : decDigits n = [Nat.digitChar n] := by
  rw [decDigits, dif_pos h]

theorem decDigits_ge {n : Nat} (h : ¬ n < 10) :
    decDigits n = decDigits (n / 10) ++ [Nat.digitChar (n % 10)] := by
  conv_lhs => rw [decDigits]
  rw [dif_neg h]

theorem toDigitsCore_eq_decDigits :
    ∀ (fuel n : Nat) (ds : List Char), n < fuel →
      Nat.toDigitsCore 10 fuel n ds = decDigits n ++ ds := by
  intro fuel
  induction fuel with
  | zero => intro n ds h; omega
  | succ fuel ih =>
    intro n ds h
    rw [Nat.toDigitsCore]
    by_cases h10 : n / 10 = 0
    · have hn10 : n < 10 := by omega
      simp only [h10, if_pos rfl]
      rw [decDigits_lt hn10]
      have : n % 10 = n := Nat.mod_eq_of_lt hn10
      rw [this]
      rfl
    · simp only [if_neg h10]
      have hlt : n / 10 < fuel := by
        have h1 : n / 10 < n := Nat.div_lt_self (by omega) (by omega)
        omega
      rw [ih (n / 10) (Nat.digitChar (n % 10) :: ds) hlt]
      rw [decDigits_ge (by omega : ¬ n < 10)]
      simp

theorem repr_data_eq_decDigits (n : Nat) : (Nat.repr n).data = decDigits n := by
  show (Nat.toDigits 10 n).asString.data = decDigits n
  rw [Nat.toDigits, toDigitsCore_eq_decDigits (n + 1) n [] (by omega)]
  simp [List.asString]

theorem digitChar_ne_space {d : Nat} (h : d < 10) : Nat.digitChar d ≠ ' ' := by
  interval_cases d <;> decide

theorem decDigits_no_space (n : Nat) : ∀ c ∈ decDigits n, c ≠ ' ' := by
  induction n using Nat.strong_induction_on with
  | _ n ih =>
    intro c hc
    by_cases h10 : n < 10
    · rw [decDigits_lt h10] at hc
      simp only [List.mem_singleton] at hc
      exact hc ▸ digitChar_ne_space h10
    · rw [decDigits_ge h10] at hc
      rcases List.mem_append.mp hc with h | h
      · exact ih (n / 10) (Nat.div_lt_self (by omega) (by omega)) c h
      · simp only [List.mem_singleton] at h
        exact h ▸ digitChar_ne_space (Nat.mod_lt n (by omega))

theorem digitChar_inj {a b : Nat} (ha : a < 10) (hb : b < 10)
    (h : Nat.digitChar a = Nat.digitChar b) : a = b := by
  interval_cases a <;> interval_cases b <;> first | rfl | (exfalso; exact absurd h (by decide))

theorem decDigits_inj : ∀ {a b : Nat}, decDigits a = decDigits b → a = b := by
  intro a
  induction a using Nat.strong_induction_on with
  | _ a ih =>
    intro b h
    by_cases ha : a < 10 <;> by_cases hb : b < 10
    · rw [decDigits_lt ha, decDigits_lt hb] at h
      exact digitChar_inj ha hb (List.singleton_injective h)
    · rw [decDigits_lt ha, decDigits_ge hb] at h
      have := congrArg List.length h
      simp only [List.length_singleton, List.length_append] at this
      have h1 : 1 ≤ (decDigits (b / 10)).length := by
        rw [decDigits]
        split
        · simp
        · simp
      omega
    · rw [decDigits_ge ha, decDigits_lt hb] at h
      have := congrArg List.length h
      simp only [List.length_singleton, List.length_append] at this
      have h1 : 1 ≤ (decDigits (a / 10)).length := by
        rw [decDigits]
        split
        · simp
        · simp
      omega
    · rw [decDigits_ge ha, decDigits_ge hb] at h
      have h2 := List.append_inj' h rfl
      have hdiv : a / 10 = b / 10 :=
        ih (a / 10) (Nat.div_lt_self (by omega) (by omega)) h2.1
      have hmod : a % 10 = b % 10 := by
        have := List.singleton_injective h2.2
        exact digitChar_inj (Nat.mod_lt a (by omega)) (Nat.mod_lt b (by omega)) this
      omega

/-- Splitting a concatenation at its first space: if neither prefix contains
a space, the prefixes and suffixes agree. -/
theorem space_split_inj :
    ∀ (xs ys u v : List Char), (∀ c ∈ xs, c ≠ ' ') → (∀ c ∈ ys, c ≠ ' ') →
      xs ++ ' ' :: u = ys ++ ' ' :: v → xs = ys ∧ u = v := by
  intro xs
  induction xs with
  | nil =>
    intro ys u v _ hys h
    cases ys with
    | nil => simpa using h
    | cons y ys' =>
      simp only [List.nil_append, List.cons_append, List.cons.injEq] at h
      exact absurd h.1.symm (hys y (List.mem_cons_self _ _))
  | cons x xs' ih =>
    intro ys u v hxs hys h
    cases ys with
    | nil =>
      simp only [List.nil_append, List.cons_append, List.cons.injEq] at h
      exact absurd h.1 (hxs x (List.mem_cons_self _ _))
    | cons y ys' =>
      simp only [List.cons_append, List.cons.injEq] at h
      have := ih ys' u v (fun c hc => hxs c (List.mem_cons_of_mem _ hc))
        (fun c hc => hys c (List.mem_cons_of_mem _ hc)) h.2
      exact ⟨by rw [h.1, this.1], this.2⟩

theorem decFormat_data (i : Nat) (name : String) :
    (decFormat i name).data = decDigits i ++ ' ' :: '-' :: ' ' :: name.data := by
  show (Nat.repr i ++ " - " ++ name).data = _
  rw [String.data_append, String.data_append, repr_data_eq_decDigits,
    List.append_assoc]
  rfl

/-- The index is recoverable from the formatted shuffle file name. -/
theorem decFormat_index_inj {a b : Nat} {x y : String}
    (h : decFormat a x = decFormat b y) : a = b := by
  have hd := congrArg String.data h
  rw [decFormat_data, decFormat_data] at hd
  have := space_split_inj (decDigits a) (decDigits b) _ _
    (decDigits_no_space a) (decDigits_no_space b) hd
  exact decDigits_inj this.1

/-! ## Scanner lemmas -/

/-- On a directory whose entries all read successfully and have UTF-8 names
(given as `(is_file, name)` pairs), the scanner returns exactly the file
entries whose name passes the extension test, in order, as joined paths. -/
theorem scanEntries_characterization (dirPath : Path) (entries : List (Bool × String)) :
    scanEntries dirPath (entries.map (fun e => Except.ok ⟨e.1, some e.2⟩)) =
      ScanResult.ok ((entries.filter (fun e => e.1 && extMatches e.2)).map
        (fun e => dirPath.push e.2)) := by
  induction entries with
  | nil => rfl
  | cons e rest ih =>
    obtain ⟨isf, nm⟩ := e
    cases isf <;> by_cases hx : extMatches nm <;>
      simp [scanEntries, hx, ih, List.filter_cons]

theorem scanEntries_panics_of_mem (dirPath : Path)
    (entries : List (Except ErrorKind DirEntry)) (er : ErrorKind) :
    (Except.error er ∈ entries → scanEntries dirPath entries = .panicked)
    ∧ (Except.ok ⟨true, none⟩ ∈ entries → scanEntries dirPath entries = .panicked) := by
  induction entries with
  | nil => exact ⟨fun h => absurd h (List.not_mem_nil _), fun h => absurd h (List.not_mem_nil _)⟩
  | cons x rest ih =>
    constructor
    · intro h
      cases x with
      | error e => rfl
      | ok entry =>
        have hr : Except.error er ∈ rest := by
          cases List.mem_cons.mp h with
          | inl h' => exact absurd h' (by simp)
          | inr h' => exact h'
        obtain ⟨isf, nm⟩ := entry
        cases isf with
        | false => simpa [scanEntries] using ih.1 hr
        | true =>
          cases nm with
          | none => simp [scanEntries]
          | some name =>
            by_cases hx : extMatches name <;>
              simp [scanEntries, hx, ih.1 hr]
    · intro h
      cases x with
      | error e => rfl
      | ok entry =>
        by_cases hx2 : entry = (⟨true, none⟩ : DirEntry)
        · subst hx2; simp [scanEntries]
        · have hr : Except.ok (⟨true, none⟩ : DirEntry) ∈ rest := by
            cases List.mem_cons.mp h with
            | inl h' =>
              exact absurd (by injection h'.symm) hx2
            | inr h' => exact h'
          obtain ⟨isf, nm⟩ := entry
          cases isf with
          | false => simpa [scanEntries] using ih.2 hr
          | true =>
            cases nm with
            | none => simp [scanEntries]
            | some name =>
              by_cases hx : extMatches name <;>
                simp [scanEntries, hx, ih.2 hr]

/-! ## Grouper lemmas -/

theorem lookupKey_insertSong (m : List (String × List Path)) (kI kL : String) (p : Path) :
    lookupKey kL (insertSong m kI p) =
      if kI = kL then some (((lookupKey kL m).getD []) ++ [p])
      else lookupKey kL m := by
  induction m with
  | nil => by_cases h : kI = kL <;> simp [insertSong, lookupKey, h]
  | cons kv rest ih =>
    obtain ⟨k2, v⟩ := kv
    by_cases h2 : k2 = kI
    · subst h2
      by_cases h3 : k2 = kL
      · subst h3
        simp [insertSong, lookupKey]
      · simp [insertSong, lookupKey, h3]
    · by_cases h3 : k2 = kL
      · subst h3
        have : ¬ kI = k2 := fun h => h2 h.symm
        simp [insertSong, lookupKey, h2, this]
      · simp [insertSong, lookupKey, h2, h3, ih]

theorem lookupKey_group_fold (tags : Path → Option String) (k : String) :
    ∀ (songs : List Path) (m : List (String × List Path)),
      lookupKey k (songs.foldl (fun acc p => insertSong acc (artistLabel tags p) p) m) =
        match lookupKey k m with
        | some v => some (v ++ songs.filter (fun p => artistLabel tags p == k))
        | none =>
          if songs.filter (fun p => artistLabel tags p == k) = [] then none
          else some (songs.filter (fun p => artistLabel tags p == k)) := by
  intro songs
  induction songs with
  | nil =>
    intro m
    cases h : lookupKey k m <;> simp [List.foldl, h]
  | cons p rest ih =>
    intro m
    rw [List.foldl_cons, ih]
    rw [lookupKey_insertSong]
    by_cases hk : artistLabel tags p = k
    · have hbeq : (artistLabel tags p == k) = true := beq_iff_eq.mpr hk
      rw [if_pos hk]
      cases h : lookupKey k m with
      | some v => simp [List.filter_cons, hbeq, h]
      | none => simp [List.filter_cons, hbeq, h]
    · have hbeq : (artistLabel tags p == k) = false := by
        rcases Bool.eq_false_or_eq_true (artistLabel tags p == k) with h | h
        · exact absurd (beq_iff_eq.mp h) hk
        · exact h
      rw [if_neg hk]
      cases h : lookupKey k m with
      | some v => simp [List.filter_cons, hbeq, h]
      | none => simp [List.filter_cons, hbeq, h]

theorem group_fold_congr (tags tags2 : Path → Option String) :
    ∀ (songs : List Path) (m : List (String × List Path)),
      (∀ p ∈ songs, tags p = tags2 p) →
      songs.foldl (fun acc p => insertSong acc (artistLabel tags p) p) m =
        songs.foldl (fun acc p => insertSong acc (artistLabel tags2 p) p) m := by
  intro songs
  induction songs with
  | nil => intro m _; rfl
  | cons p rest ih =>
    intro m hagree
    rw [List.foldl_cons, List.foldl_cons]
    have hp : artistLabel tags p = artistLabel tags2 p := by
      unfold artistLabel
      rw [hagree p (List.mem_cons_self _ _)]
    rw [hp]
    exact ih _ (fun q hq => hagree q (List.mem_cons_of_mem _ hq))

/-! ## World and path lemmas -/

theorem updateFiles_point (f : Path → Option Content) (p : Path) (v : Option Content) :
    updateFiles f p v p = v := by
  simp [updateFiles]

theorem updateFiles_ne (f : Path → Option Content) (p : Path) (v : Option Content)
    (q : Path) (h : q ≠ p) : updateFiles f p v q = f q := by
  simp [updateFiles, h]

theorem updateFiles_updateFiles (f : Path → Option Content) (p : Path)
    (v v2 : Option Content) : updateFiles (updateFiles f p v) p v2 = updateFiles f p v2 := by
  funext q
  by_cases h : q = p <;> simp [updateFiles, h]

theorem isPrefixOf_append (d r : Path) : d.isPrefixOf (d ++ r) = true := by
  induction d with
  | nil => simp [List.isPrefixOf]
  | cons a as ih => simp [List.isPrefixOf, ih]

theorem push_push_eq_append (d : Path) (a b : String) :
    (d.push a).push b = d ++ [a, b] := by
  simp [Path.push]

theorem getLast?_eq_getLastD (l : List String) (h : l ≠ []) :
    l.getLast? = some (l.getLastD "") := by
  induction l with
  | nil => exact absurd rfl h
  | cons a rest ih =>
    cases rest with
    | nil => rfl
    | cons b rest2 =>
      rw [List.getLast?_cons_cons]
      rw [ih (by simp)]
      rfl

/-- Evaluation form of the string sanitizer (used to compute it on concrete
inputs, since `sanitize` is defined by well-founded recursion). -/
theorem sanitizeStr_eval (s : String) :
    sanitizeStr s = ⟨s.data.filter (fun c => !(isIllegal c))⟩ := by
  unfold sanitizeStr
  rw [sanitize_eq_filter]

/-! ## Claim theorems -/

/-- C1 (counterexample): a regular file named `mp3` — a name with no dot,
hence lacking any extension — is nevertheless returned by the scanner,
because `"mp3".split(".").last()` is `Some("mp3")`.  This refutes the
claim's assertion that files lacking any extension (no dot in the name) are
excluded. -/
theorem scanner_dotless_mp3_included :
    scanEntries ["input"] [Except.ok ⟨true, some "mp3"⟩] =
      ScanResult.ok [["input", "mp3"]]
    ∧ '.' ∉ "mp3".data := by
  constructor
  · decide
  · decide

/-- C1 (amended): on a directory whose entries all read successfully and
have UTF-8 names, the scanner returns exactly the `is_file` entries whose
name passes the extension test `split(".").last() == "mp3"` (case-sensitive),
in order and without error; and for a name containing no dot that test holds
exactly when the entire name is `"mp3"` (so dotless files other than one
named `mp3` are excluded). -/
theorem scanner_returns_exactly_mp3_files (dirPath : Path)
    (entries : List (Bool × String)) (name : String) :
    (scanEntries dirPath (entries.map (fun e => Except.ok ⟨e.1, some e.2⟩)) =
      ScanResult.ok ((entries.filter (fun e => e.1 && extMatches e.2)).map
        (fun e => dirPath.push e.2)))
    ∧ ('.' ∉ name.data → extMatches name = (name == "mp3")) := by
  constructor
  · exact scanEntries_characterization dirPath entries
  · intro hnodot
    have hsplit : splitDot name.data = [name.data] := by
      generalize name.data = l at hnodot ⊢
      induction l with
      | nil => rfl
      | cons c cs ih =>
        have hc : c ≠ '.' := fun h => hnodot (h ▸ List.mem_cons_self _ _)
        rw [splitDot]
        simp only [if_neg hc]
        rw [ih (fun h => hnodot (List.mem_cons_of_mem _ h))]
    rw [extMatches, hsplit]
    simp only [List.getLast?_singleton]
    rcases Bool.eq_false_or_eq_true (name == "mp3") with h | h
    · rw [h]
      have : name = "mp3" := beq_iff_eq.mp h
      simp [this]
    · rw [h]
      have hne : name ≠ "mp3" := fun hc => by
        rw [hc] at h
        simp at h
      have : name.data ≠ "mp3".data := fun hd => hne (by
        cases name
        cases hd
        rfl)
      simp [this]

/-- C1 (witness): the extension test on the dotless name `"noext"` agrees
with whole-name comparison against `"mp3"`, hence rejects it. -/
theorem scanner_returns_exactly_mp3_files_witness :
    '.' ∉ "noext".data ∧ extMatches "noext" = ("noext" == "mp3") :=
  ⟨by decide, (scanner_returns_exactly_mp3_files [] [] "noext").2 (by decide)⟩

/-- C2: the sanitizer deletes exactly the characters
`< > : " / \ | ? *` and NUL, keeps every other character in its relative
order (it equals the filter dropping the illegal characters), and is
idempotent. -/
theorem sanitizer_exact_and_idempotent (s : List Char) :
    sanitize s = s.filter (fun c => !(isIllegal c))
    ∧ sanitize (sanitize s) = sanitize s := by
  refine ⟨sanitize_eq_filter s, ?_⟩
  rw [sanitize_eq_filter s, sanitize_eq_filter]
  rw [List.filter_filter]
  simp

/-- C3: looking up any key in the grouped songs yields exactly the input
songs whose sanitized artist label (with the `"Unknown"` fallback) equals
that key, in input order (absent keys yield nothing); and the grouping
depends only on the tag contents of the listed songs, so it is deterministic
in (Song List, tag contents). -/
theorem grouper_buckets_and_determinism (tags : Path → Option String)
    (songs : List Path) (k : String) :
    (lookupKey k (group_song_list_by_artist tags songs) =
      if songs.filter (fun p => artistLabel tags p == k) = [] then none
      else some (songs.filter (fun p => artistLabel tags p == k)))
    ∧ (∀ tags2, (∀ p ∈ songs, tags p = tags2 p) →
        group_song_list_by_artist tags songs = group_song_list_by_artist tags2 songs) := by
  constructor
  · have h := lookupKey_group_fold tags k songs []
    simpa [group_song_list_by_artist, lookupKey] using h
  · intro tags2 hagree
    exact group_fold_congr tags tags2 songs [] hagree

/-- C3 (witness): at a concrete song list and two tag oracles agreeing on
it, the groupings coincide, and the bucket of the sanitized label `"ACDC"`
(from artist `"AC/DC"`) holds exactly the song. -/
theorem grouper_buckets_and_determinism_witness :
    group_song_list_by_artist (fun _ => some "AC/DC") [["in", "a.mp3"]] =
      group_song_list_by_artist
        (fun p => if p = ["in", "a.mp3"] then some "AC/DC" else none) [["in", "a.mp3"]]
    ∧ lookupKey "ACDC"
        (group_song_list_by_artist (fun _ => some "AC/DC") [["in", "a.mp3"]]) =
      some [["in", "a.mp3"]] := by
  have h := grouper_buckets_and_determinism (fun _ => some "AC/DC") [["in", "a.mp3"]] "ACDC"
  have hart : artistLabel (fun _ => some "AC/DC") ["in", "a.mp3"] = "ACDC" := by
    rw [artistLabel, Option.getD_some, sanitizeStr_eval]
    decide
  constructor
  · refine h.2 _ ?_
    intro p hp
    simp only [List.mem_singleton] at hp
    subst hp
    simp
  · rw [h.1]
    rw [List.filter_singleton]
    simp [hart]

/-- C4 (counterexample): a successfully parsed tag whose artist frame is
present but empty is passed through as `Some("")`, not turned into the
no-artist result, refuting the claim that an empty artist yields `None`. -/
theorem tag_reader_empty_artist_passed_through :
    get_artist_from_file (Except.ok ⟨some ""⟩) = some ""
    ∧ get_artist_from_file (Except.ok ⟨some ""⟩) ≠ none := by
  constructor
  · rfl
  · decide

/-- C4 (amended): the tag reader returns an artist string exactly when the
parse succeeded and the artist frame is present with that content (even if
empty); any parse failure yields the no-artist result, never an error. -/
theorem tag_reader_artist_exact (parse : Except Id3Error Id3Tag) (a : String) :
    (get_artist_from_file parse = some a ↔ parse = Except.ok ⟨some a⟩)
    ∧ (∀ e, get_artist_from_file (Except.error e) = none) := by
  constructor
  · constructor
    · intro h
      cases parse with
      | ok tag =>
        obtain ⟨art⟩ := tag
        simp only [get_artist_from_file] at h
        rw [h]
      | error e => simp [get_artist_from_file] at h
    · intro h
      subst h
      rfl
  · intro e
    rfl

/-- C7 (code bug): when `fs::read_dir` on the input directory fails, both
`organize_songs` and `shuffle_songs` panic — `.unwrap()` on the scanner's
`Err` — instead of returning the I/O error in their `std::io::Result`, as
their own doc comments and the claim state. -/
theorem unreadable_input_panics (overwrite : Bool) (inputDir outputDir : Path)
    (e : ErrorKind) (parses : Path → Except Id3Error Id3Tag)
    (shuffler : List Path → List Path) (w : World) :
    organize_songs overwrite inputDir outputDir (Except.error e) parses w =
      RunOutcome.panicked
    ∧ shuffle_songs overwrite inputDir outputDir (Except.error e) shuffler w =
      RunOutcome.panicked
    ∧ (∀ e2 w2, RunOutcome.panicked ≠ RunOutcome.err e2 w2) := by
  refine ⟨rfl, rfl, ?_⟩
  intro e2 w2 h
  exact RunOutcome.noConfusion h

/-- C8: creating the output directory treats `AlreadyExists` (whether from
the existence check or an injected fault) as success with a notice; any
other creation error is returned as-is and aborts `output_grouped_songs`
with the world unchanged; an artist-directory creation error other than
`AlreadyExists` likewise aborts the bucket loop immediately, leaving the
remaining buckets and files unprocessed, while `AlreadyExists` continues
into the bucket. -/
theorem dir_creation_error_policy (overwrite : Bool) (inputDir outputDir : Path)
    (artist : String) (paths : List Path) (rest : List (String × List Path))
    (groups : List (String × List Path)) (w : World) (e : ErrorKind) :
    (w.dirFault outputDir = none → w.dirs outputDir = true →
      create_output_dir w outputDir = Except.ok (logMsg w Notice.outputDirExists))
    ∧ (fsCreateDir w outputDir = Except.error e → e ≠ ErrorKind.alreadyExists →
      create_output_dir w outputDir = Except.error e)
    ∧ (create_output_dir w outputDir = Except.error e →
      output_grouped_songs overwrite inputDir outputDir groups w =
        (w, some (Abort.err e)))
    ∧ (fsCreateDir w (outputDir.push artist) = Except.error e →
       e ≠ ErrorKind.alreadyExists →
      processGroups overwrite inputDir outputDir w ((artist, paths) :: rest) =
        (w, some (Abort.err e)))
    ∧ (fsCreateDir w (outputDir.push artist) = Except.error ErrorKind.alreadyExists →
      processGroups overwrite inputDir outputDir w ((artist, paths) :: rest) =
        (match processSongsOrganize overwrite inputDir (outputDir.push artist)
            (logMsg w (Notice.artistDirExists artist)) paths with
         | (w2, none) => processGroups overwrite inputDir outputDir w2 rest
         | (w2, some a) => (w2, some a))) := by
  refine ⟨?_, ?_, ?_, ?_, ?_⟩
  · intro h1 h2
    simp [create_output_dir, fsCreateDir, h1, h2]
  · intro h hne
    rw [create_output_dir, h]
    cases e with
    | alreadyExists => exact absurd rfl hne
    | notFound => rfl
    | permissionDenied => rfl
    | otherKind => rfl
  · intro h
    rw [output_grouped_songs, h]
  · intro h hne
    rw [processGroups, h]
    cases e with
    | alreadyExists => exact absurd rfl hne
    | notFound => rfl
    | permissionDenied => rfl
    | otherKind => rfl
  · intro h
    rw [processGroups, h]

/-- C8 (witness): with an injected `PermissionDenied` on the artist
directory, the bucket loop aborts at once with that error and an unchanged
world. -/
theorem dir_creation_error_policy_witness :
    processGroups false ["in"] ["out"]
      { files := fun _ => none, dirs := fun _ => false,
        dirFault := fun p => if p = ["out", "A"] then some ErrorKind.permissionDenied else none,
        log := [] }
      [("A", [["in", "x.mp3"]])] =
      ({ files := fun _ => none, dirs := fun _ => false,
         dirFault := fun p => if p = ["out", "A"] then some ErrorKind.permissionDenied else none,
         log := [] }, some (Abort.err ErrorKind.permissionDenied)) :=
  (dir_creation_error_policy false ["in"] ["out"] "A" [["in", "x.mp3"]] [] []
    _ ErrorKind.permissionDenied).2.2.2.1 rfl (by decide)

/-- C10 (counterexample): a directory entry that is not a regular file and
whose name is not valid UTF-8 is silently skipped — `is_file()` short-circuits
the filter before the name is converted — so the scanner does not panic,
refuting the claim that any entry with a non-UTF-8 name panics. -/
theorem scanner_nonfile_invalid_name_skipped :
    scanEntries ["input"] [Except.ok ⟨false, none⟩] = ScanResult.ok []
    ∧ ScanResult.ok ([] : List Path) ≠ ScanResult.panicked := by
  constructor
  · rfl
  · decide

/-- C10 (amended): the scanner panics — rather than returning an error or
skipping — whenever some entry fails to be read, and whenever some entry
that is a regular file has a name that is not valid UTF-8. -/
theorem scanner_panics_on_bad_entries (dirPath : Path)
    (entries : List (Except ErrorKind DirEntry)) (er : ErrorKind) :
    (Except.error er ∈ entries → scanEntries dirPath entries = ScanResult.panicked)
    ∧ (Except.ok ⟨true, none⟩ ∈ entries →
      scanEntries dirPath entries = ScanResult.panicked) :=
  scanEntries_panics_of_mem dirPath entries er

/-- C10 (witness): a failing read after a good entry panics; a regular-file
entry with a non-UTF-8 name after a skipped entry panics. -/
theorem scanner_panics_on_bad_entries_witness :
    scanEntries ["input"]
      [Except.ok ⟨true, some "a.mp3"⟩, Except.error ErrorKind.permissionDenied] =
      ScanResult.panicked
    ∧ scanEntries ["input"] [Except.ok ⟨false, some "b"⟩, Except.ok ⟨true, none⟩] =
      ScanResult.panicked :=
  ⟨(scanner_panics_on_bad_entries ["input"] _ ErrorKind.permissionDenied).1 (by simp),
   (scanner_panics_on_bad_entries ["input"] _ ErrorKind.permissionDenied).2 (by simp)⟩

/-! ## Frame lemmas for the filesystem operations -/

theorem push_inj_of_ne (d1 d2 : Path) (s : String) (h : d1 ≠ d2) :
    d1.push s ≠ d2.push s := by
  intro hc
  exact h (List.append_cancel_right hc)

theorem not_push_of_outside (d q : Path) (h : d.isPrefixOf q = false) :
    ∀ s, q ≠ d.push s := by
  intro s hq
  rw [hq, Path.push] at h
  rw [isPrefixOf_append] at h
  cases h

theorem not_push_push_of_outside (d q : Path) (h : d.isPrefixOf q = false) :
    ∀ a s, q ≠ (d.push a).push s := by
  intro a s hq
  rw [hq, push_push_eq_append] at h
  rw [isPrefixOf_append] at h
  cases h

theorem fsRemoveFile_frame (w w2 : World) (p q : Path) (hne : q ≠ p)
    (h : fsRemoveFile w p = .ok w2) : w2.files q = w.files q := by
  rw [fsRemoveFile] at h
  cases hf : w.files p with
  | none => rw [hf] at h; cases h
  | some c =>
    rw [hf] at h
    cases h
    exact updateFiles_ne _ _ _ _ hne

theorem fsCopy_frame (w w2 : World) (src dst q : Path) (hne : q ≠ dst)
    (h : fsCopy w src dst = .ok w2) : w2.files q = w.files q := by
  rw [fsCopy] at h
  cases hf : w.files src with
  | none => rw [hf] at h; cases h
  | some c =>
    rw [hf] at h
    cases h
    exact updateFiles_ne _ _ _ _ hne

theorem fsCreateDir_files (w w2 : World) (p : Path)
    (h : fsCreateDir w p = .ok w2) : w2.files = w.files := by
  rw [fsCreateDir] at h
  cases hf : w.dirFault p with
  | some e => rw [hf] at h; cases h
  | none =>
    rw [hf] at h
    by_cases hd : w.dirs p
    · rw [if_pos hd] at h; cases h
    · rw [if_neg hd] at h; cases h; rfl

theorem create_output_dir_files (w w2 : World) (p : Path)
    (h : create_output_dir w p = .ok w2) : w2.files = w.files := by
  rw [create_output_dir] at h
  cases hc : fsCreateDir w p with
  | ok w3 =>
    rw [hc] at h
    cases h
    exact fsCreateDir_files w w2 p hc
  | error e =>
    rw [hc] at h
    cases e with
    | alreadyExists => cases h; rfl
    | notFound => cases h
    | permissionDenied => cases h
    | otherKind => cases h

theorem processSongOrganize_frame (ov : Bool) (inputDir newDirPath : Path)
    (w : World) (path q : Path) (h : ∀ s, q ≠ newDirPath.push s) :
    (processSongOrganize ov inputDir newDirPath w path).1.files q = w.files q := by
  rw [processSongOrganize]
  cases hl : path.getLast? with
  | none => rfl
  | some name =>
    have hq : q ≠ newDirPath.push name := h name
    simp only
    by_cases hm : fsMetadataIsOk (logMsg w (.processing name)) (newDirPath.push name)
    · rw [if_pos hm]
      cases ov with
      | false => rfl
      | true =>
        simp only [if_pos]
        cases hr : fsRemoveFile (logMsg w (.processing name)) (newDirPath.push name) with
        | error e => simp [hr, logMsg]
        | ok w2 =>
          have h2 : w2.files q = w.files q :=
            fsRemoveFile_frame (logMsg w (.processing name)) w2 _ q hq hr
          cases hcp : fsCopy w2 (inputDir.push name) (newDirPath.push name) with
          | error e => simp [hr, hcp, h2]
          | ok w3 =>
            have h3 : w3.files q = w2.files q :=
              fsCopy_frame w2 w3 _ _ q hq hcp
            simp [hr, hcp, h3, h2]
    · rw [if_neg hm]
      cases hcp : fsCopy (logMsg w (.processing name)) (inputDir.push name)
          (newDirPath.push name) with
      | error e => simp [hcp, logMsg]
      | ok w2 =>
        have h2 : w2.files q = w.files q :=
          fsCopy_frame (logMsg w (.processing name)) w2 _ _ q hq hcp
        simp [hcp, h2]

theorem processSongsOrganize_frame (ov : Bool) (inputDir newDirPath : Path)
    (q : Path) (h : ∀ s, q ≠ newDirPath.push s) :
    ∀ (paths : List Path) (w : World),
      (processSongsOrganize ov inputDir newDirPath w paths).1.files q = w.files q := by
  intro paths
  induction paths with
  | nil => intro w; rfl
  | cons p rest ih =>
    intro w
    rw [processSongsOrganize]
    cases hs : processSongOrganize ov inputDir newDirPath w p with
    | mk w2 a =>
      have h2 : w2.files q = w.files q := by
        have := processSongOrganize_frame ov inputDir newDirPath w p q h
        rw [hs] at this
        exact this
      cases a with
      | none => rw [ih w2, h2]
      | some ab => exact h2

theorem processGroups_frame (ov : Bool) (inputDir outputDir : Path)
    (q : Path) (h : outputDir.isPrefixOf q = false) :
    ∀ (groups : List (String × List Path)) (w : World),
      (processGroups ov inputDir outputDir w groups).1.files q = w.files q := by
  intro groups
  induction groups with
  | nil => intro w; rfl
  | cons g rest ih =>
    intro w
    obtain ⟨artist, paths⟩ := g
    have hq : ∀ s, q ≠ (outputDir.push artist).push s := fun s =>
      not_push_push_of_outside outputDir q h artist s
    rw [processGroups]
    cases hc : fsCreateDir w (outputDir.push artist) with
    | ok w1 =>
      have h1 : w1.files = w.files := fsCreateDir_files _ _ _ hc
      dsimp only
      cases hp : processSongsOrganize ov inputDir (outputDir.push artist) w1 paths with
      | mk w2 a =>
        have h2 : w2.files q = w.files q := by
          have := processSongsOrganize_frame ov inputDir (outputDir.push artist) q hq paths w1
          rw [hp] at this
          rw [this, h1]
        cases a with
        | none =>
          dsimp only
          rw [ih w2, h2]
        | some ab => exact h2
    | error e =>
      cases e with
      | alreadyExists =>
        dsimp only
        cases hp : processSongsOrganize ov inputDir (outputDir.push artist)
            (logMsg w (.artistDirExists artist)) paths with
        | mk w2 a =>
          have h2 : w2.files q = w.files q := by
            have := processSongsOrganize_frame ov inputDir (outputDir.push artist) q hq
              paths (logMsg w (.artistDirExists artist))
            rw [hp] at this
            exact this
          cases a with
          | none =>
            dsimp only
            rw [ih w2, h2]
          | some ab => exact h2
      | notFound => rfl
      | permissionDenied => rfl
      | otherKind => rfl

theorem output_grouped_songs_frame (ov : Bool) (inputDir outputDir : Path)
    (groups : List (String × List Path)) (w : World) (q : Path)
    (h : outputDir.isPrefixOf q = false) :
    (output_grouped_songs ov inputDir outputDir groups w).1.files q = w.files q := by
  rw [output_grouped_songs]
  cases hc : create_output_dir w outputDir with
  | error e => rfl
  | ok w1 =>
    have h1 : w1.files = w.files := create_output_dir_files _ _ _ hc
    rw [processGroups_frame ov inputDir outputDir q h groups w1, h1]

theorem processSongShuffle_frame (ov : Bool) (outputDir : Path) (i : Nat)
    (w : World) (path q : Path) (h : ∀ s, q ≠ outputDir.push s) :
    (processSongShuffle ov outputDir i w path).1.files q = w.files q := by
  rw [processSongShuffle]
  cases hl : path.getLast? with
  | none => rfl
  | some name =>
    have hq : q ≠ outputDir.push (decFormat i name) := h _
    simp only
    by_cases hm : fsMetadataIsOk (logMsg w (.processing name))
        (outputDir.push (decFormat i name))
    · rw [if_pos hm]
      cases ov with
      | false => rfl
      | true =>
        simp only [if_pos]
        cases hr : fsRemoveFile (logMsg w (.processing name))
            (outputDir.push (decFormat i name)) with
        | error e => simp [hr, logMsg]
        | ok w2 =>
          have h2 : w2.files q = w.files q :=
            fsRemoveFile_frame (logMsg w (.processing name)) w2 _ q hq hr
          cases hcp : fsCopy w2 path (outputDir.push (decFormat i name)) with
          | error e => simp [hr, hcp, h2]
          | ok w3 =>
            have h3 : w3.files q = w2.files q :=
              fsCopy_frame w2 w3 _ _ q hq hcp
            simp [hr, hcp, h3, h2]
    · rw [if_neg hm]
      cases hcp : fsCopy (logMsg w (.processing name)) path
          (outputDir.push (decFormat i name)) with
      | error e => simp [hcp, logMsg]
      | ok w2 =>
        have h2 : w2.files q = w.files q :=
          fsCopy_frame (logMsg w (.processing name)) w2 _ _ q hq hcp
        simp [hcp, h2]

theorem processSongsShuffle_frame (ov : Bool) (outputDir : Path)
    (q : Path) (h : ∀ s, q ≠ outputDir.push s) :
    ∀ (paths : List Path) (i : Nat) (w : World),
      (processSongsShuffle ov outputDir i w paths).1.files q = w.files q := by
  intro paths
  induction paths with
  | nil => intro i w; rfl
  | cons p rest ih =>
    intro i w
    rw [processSongsShuffle]
    cases hs : processSongShuffle ov outputDir i w p with
    | mk w2 a =>
      have h2 : w2.files q = w.files q := by
        have := processSongShuffle_frame ov outputDir i w p q h
        rw [hs] at this
        exact this
      cases a with
      | none => rw [ih (i + 1) w2, h2]
      | some ab => exact h2

theorem output_shuffled_songs_frame (ov : Bool) (outputDir : Path)
    (songs : List Path) (w : World) (q : Path)
    (h : outputDir.isPrefixOf q = false) :
    (output_shuffled_songs ov outputDir songs w).1.files q = w.files q := by
  rw [output_shuffled_songs]
  cases hc : create_output_dir w outputDir with
  | error e => rfl
  | ok w1 =>
    have h1 : w1.files = w.files := create_output_dir_files _ _ _ hc
    rw [processSongsShuffle_frame ov outputDir q (not_push_of_outside _ _ h)
      songs 0 w1, h1]

/-- C9: in both modes, the run never modifies — in particular never
deletes — the file at any path not under the output directory: every
`fs::remove_file` and every copy destination lies under the output
directory, so source files (and everything else outside the output tree)
are untouched, whatever partial progress was made. -/
theorem no_writes_outside_output_dir (ov : Bool) (inputDir outputDir : Path)
    (groups : List (String × List Path)) (songs : List Path) (w : World)
    (q : Path) (hq : outputDir.isPrefixOf q = false) :
    (output_grouped_songs ov inputDir outputDir groups w).1.files q = w.files q
    ∧ (output_shuffled_songs ov outputDir songs w).1.files q = w.files q :=
  ⟨output_grouped_songs_frame ov inputDir outputDir groups w q hq,
   output_shuffled_songs_frame ov outputDir songs w q hq⟩

/-- C9 (witness): in a concrete overwrite-enabled run of each mode, the
source file's contents are intact afterwards. -/
theorem no_writes_outside_output_dir_witness :
    (output_grouped_songs true ["in"] ["out"] [("A", [["in", "x.mp3"]])]
        { files := fun p => if p = ["in", "x.mp3"] then some 1 else none,
          dirs := fun _ => false, dirFault := fun _ => none, log := [] }).1.files
        ["in", "x.mp3"] = some 1
    ∧ (output_shuffled_songs true ["out"] [["in", "x.mp3"]]
        { files := fun p => if p = ["in", "x.mp3"] then some 1 else none,
          dirs := fun _ => false, dirFault := fun _ => none, log := [] }).1.files
        ["in", "x.mp3"] = some 1 := by
  have h := no_writes_outside_output_dir true ["in"] ["out"]
    [("A", [["in", "x.mp3"]])] [["in", "x.mp3"]]
    { files := fun p => if p = ["in", "x.mp3"] then some 1 else none,
      dirs := fun _ => false, dirFault := fun _ => none, log := [] }
    ["in", "x.mp3"] (by decide)
  refine ⟨?_, ?_⟩
  · rw [h.1]
    rfl
  · rw [h.2]
    rfl

/-- C5: in Organize mode, for a song whose destination
`new_dir_path/file_name` already holds a file: with overwrite disabled the
copy is skipped — the filesystem is unchanged, only the processing line and
the collision notice are printed — and the loop continues into the
remaining songs with no error; with overwrite enabled (and distinct input
and destination directories) the destination is deleted and then replaced
with a copy of the source's contents, again without error. -/
theorem organize_overwrite_policy (inputDir newDirPath : Path)
    (w : World) (path : Path) (name : String) (c d : Content) (rest : List Path)
    (hname : path.getLast? = some name)
    (hexists : w.files (newDirPath.push name) = some d) :
    (processSongOrganize false inputDir newDirPath w path =
      ({ w with log := w.log ++
          [Notice.processing name, Notice.fileExists (newDirPath.push name)] }, none))
    ∧ (processSongsOrganize false inputDir newDirPath w (path :: rest) =
      processSongsOrganize false inputDir newDirPath
        { w with log := w.log ++
            [Notice.processing name, Notice.fileExists (newDirPath.push name)] } rest)
    ∧ (inputDir ≠ newDirPath → w.files (inputDir.push name) = some c →
      processSongOrganize true inputDir newDirPath w path =
        ({ w with files := updateFiles w.files (newDirPath.push name) (some c),
                  log := w.log ++ [Notice.processing name] }, none)) := by
  have hmeta : fsMetadataIsOk (logMsg w (.processing name)) (newDirPath.push name) = true := by
    simp [fsMetadataIsOk, logMsg, hexists]
  have hskip : processSongOrganize false inputDir newDirPath w path =
      ({ w with log := w.log ++
          [Notice.processing name, Notice.fileExists (newDirPath.push name)] }, none) := by
    rw [processSongOrganize, hname]
    dsimp only
    rw [hmeta]
    simp [logMsg]
  refine ⟨hskip, ?_, ?_⟩
  · rw [processSongsOrganize, hskip]
  · intro hne hsrc
    have hpne : inputDir.push name ≠ newDirPath.push name := push_inj_of_ne _ _ _ hne
    rw [processSongOrganize, hname]
    dsimp only
    rw [hmeta]
    have hrem : fsRemoveFile (logMsg w (.processing name)) (newDirPath.push name) =
        .ok { logMsg w (.processing name) with
              files := updateFiles w.files (newDirPath.push name) none } := by
      rw [fsRemoveFile]
      have : (logMsg w (.processing name)).files (newDirPath.push name) = some d := hexists
      rw [this]
      rfl
    rw [hrem]
    dsimp only
    have hcopy : fsCopy
        { logMsg w (.processing name) with
          files := updateFiles w.files (newDirPath.push name) none }
        (inputDir.push name) (newDirPath.push name) =
        .ok { logMsg w (.processing name) with
              files := updateFiles w.files (newDirPath.push name) (some c) } := by
      rw [fsCopy]
      have hread : updateFiles w.files (newDirPath.push name) none (inputDir.push name) =
          some c := by
        rw [updateFiles_ne _ _ _ _ hpne, hsrc]
      dsimp only
      rw [hread]
      dsimp only
      rw [updateFiles_updateFiles]
    rw [hcopy]
    simp [logMsg]

/-- C5 (witness): with a file already at `out/A/x.mp3` and overwrite
disabled, processing `in/x.mp3` leaves the filesystem unchanged and just
prints the processing line and the collision notice. -/
theorem organize_overwrite_policy_witness :
    processSongOrganize false ["in"] ["out", "A"]
      { files := fun p => if p = ["out", "A", "x.mp3"] then some 7
                 else if p = ["in", "x.mp3"] then some 3 else none,
        dirs := fun _ => false, dirFault := fun _ => none, log := [] }
      ["in", "x.mp3"] =
      ({ files := fun p => if p = ["out", "A", "x.mp3"] then some 7
                  else if p = ["in", "x.mp3"] then some 3 else none,
         dirs := fun _ => false, dirFault := fun _ => none,
         log := [Notice.processing "x.mp3", Notice.fileExists ["out", "A", "x.mp3"]] },
       none) :=
  (organize_overwrite_policy ["in"] ["out", "A"] _ ["in", "x.mp3"] "x.mp3" 3 7 []
    rfl rfl).1

/-! ## Shuffle-mode lemmas -/

theorem push_ne_self (d : Path) (s : String) : d.push s ≠ d := by
  intro h
  have := congrArg List.length h
  simp [Path.push] at this

theorem push_component_inj (d : Path) (a b : String) (h : d.push a = d.push b) :
    a = b := by
  have := List.append_cancel_left h
  simpa using this

theorem mem_shuffleOutPaths (outputDir : Path) :
    ∀ (rest : List Path) (i : Nat) (q : Path),
      q ∈ shuffleOutPaths outputDir i rest →
      ∃ k, ∃ hk : k < rest.length,
        q = outputDir.push (decFormat (i + k) (fileNameD (rest.get ⟨k, hk⟩))) := by
  intro rest
  induction rest with
  | nil => intro i q h; cases h
  | cons p rest' ih =>
    intro i q h
    rw [shuffleOutPaths] at h
    cases List.mem_cons.mp h with
    | inl h' => exact ⟨0, by simp, by simpa using h'⟩
    | inr h' =>
      obtain ⟨k, hk, hq⟩ := ih (i + 1) q h'
      refine ⟨k + 1, by simpa using hk, ?_⟩
      rw [hq]
      have : i + 1 + k = i + (k + 1) := by omega
      rw [this]
      rfl

theorem shuffleOutPaths_nodup (outputDir : Path) :
    ∀ (rest : List Path) (i : Nat), (shuffleOutPaths outputDir i rest).Nodup := by
  intro rest
  induction rest with
  | nil => intro i; simp [shuffleOutPaths]
  | cons p rest' ih =>
    intro i
    rw [shuffleOutPaths]
    rw [List.nodup_cons]
    refine ⟨?_, ih (i + 1)⟩
    intro hmem
    obtain ⟨k, hk, hq⟩ := mem_shuffleOutPaths outputDir rest' (i + 1) _ hmem
    have := push_component_inj _ _ _ hq
    have := decFormat_index_inj this
    omega

theorem shuffleWrites_not_mem (outputDir : Path) :
    ∀ (rest : List Path) (i : Nat) (f : Path → Option Content) (q : Path),
      q ∉ shuffleOutPaths outputDir i rest →
      shuffleWrites outputDir f i rest q = f q := by
  intro rest
  induction rest with
  | nil => intro i f q _; rfl
  | cons p rest' ih =>
    intro i f q h
    rw [shuffleOutPaths] at h
    have h1 : q ≠ outputDir.push (decFormat i (fileNameD p)) :=
      fun hc => h (hc ▸ List.mem_cons_self _ _)
    have h2 : q ∉ shuffleOutPaths outputDir (i + 1) rest' :=
      fun hc => h (List.mem_cons_of_mem _ hc)
    rw [shuffleWrites, ih (i + 1) _ q h2]
    exact updateFiles_ne _ _ _ _ h1

theorem shuffleWrites_at_index (outputDir : Path) :
    ∀ (rest : List Path) (i : Nat) (f : Path → Option Content),
      (∀ p ∈ rest, ∀ s, p ≠ outputDir.push s) →
      ∀ (k : Nat) (hk : k < rest.length),
        shuffleWrites outputDir f i rest
            (outputDir.push (decFormat (i + k) (fileNameD (rest.get ⟨k, hk⟩)))) =
          f (rest.get ⟨k, hk⟩) := by
  intro rest
  induction rest with
  | nil => intro i f _ k hk; cases hk
  | cons p rest' ih =>
    intro i f hsrc k hk
    cases k with
    | zero =>
      have hget0 : (p :: rest').get ⟨0, hk⟩ = p := rfl
      rw [hget0, Nat.add_zero, shuffleWrites]
      have hni : outputDir.push (decFormat i (fileNameD p)) ∉
          shuffleOutPaths outputDir (i + 1) rest' := by
        intro hmem
        obtain ⟨k2, hk2, hq⟩ := mem_shuffleOutPaths outputDir rest' (i + 1) _ hmem
        have h1 := push_component_inj _ _ _ hq
        have h2 := decFormat_index_inj h1
        omega
      rw [shuffleWrites_not_mem outputDir rest' (i + 1) _ _ hni]
      exact updateFiles_point _ _ _
    | succ k2 =>
      rw [shuffleWrites]
      have harith : i + (k2 + 1) = (i + 1) + k2 := by omega
      have hget : (p :: rest').get ⟨k2 + 1, hk⟩ =
          rest'.get ⟨k2, by simpa using hk⟩ := rfl
      rw [hget, harith]
      rw [ih (i + 1) _ (fun q hq s => hsrc q (List.mem_cons_of_mem _ hq) s) k2
        (by simpa using hk)]
      exact updateFiles_ne _ _ _ _
        (hsrc _ (List.mem_cons_of_mem _ (rest'.get_mem _ _)) _)

theorem processSongsShuffle_spec (ov : Bool) (outputDir : Path) :
    ∀ (rest : List Path) (i : Nat) (w : World),
      (∀ p ∈ rest, (w.files p).isSome = true ∧ (∀ s, p ≠ outputDir.push s) ∧ p ≠ []) →
      (∀ q ∈ shuffleOutPaths outputDir i rest, w.files q = none) →
      (∀ s, w.dirs (outputDir.push s) = false) →
      ((processSongsShuffle ov outputDir i w rest).2 = none)
      ∧ ((processSongsShuffle ov outputDir i w rest).1.files =
          shuffleWrites outputDir w.files i rest)
      ∧ ((processSongsShuffle ov outputDir i w rest).1.dirs = w.dirs) := by
  intro rest
  induction rest with
  | nil => intro i w _ _ _; exact ⟨rfl, rfl, rfl⟩
  | cons p rest' ih =>
    intro i w hsrc hfresh hdirs
    obtain ⟨hsome, hnp, hnn⟩ := hsrc p (List.mem_cons_self _ _)
    obtain ⟨cp, hcp⟩ := Option.isSome_iff_exists.mp hsome
    have hgl : p.getLast? = some (fileNameD p) := getLast?_eq_getLastD p hnn
    have hfresh0 : w.files (outputDir.push (decFormat i (fileNameD p))) = none :=
      hfresh _ (by rw [shuffleOutPaths]; exact List.mem_cons_self _ _)
    have hstep : processSongShuffle ov outputDir i w p =
        ({ logMsg w (.processing (fileNameD p)) with
           files := updateFiles w.files (outputDir.push (decFormat i (fileNameD p)))
             (w.files p) }, none) := by
      rw [processSongShuffle, hgl]
      dsimp only
      have hmeta : fsMetadataIsOk (logMsg w (.processing (fileNameD p)))
          (outputDir.push (decFormat i (fileNameD p))) = false := by
        simp [fsMetadataIsOk, logMsg, hfresh0, hdirs]
      rw [hmeta]
      rw [if_neg (by simp : ¬ (false = true))]
      have hfc : fsCopy (logMsg w (.processing (fileNameD p))) p
          (outputDir.push (decFormat i (fileNameD p))) =
          .ok { logMsg w (.processing (fileNameD p)) with
                files := updateFiles w.files
                  (outputDir.push (decFormat i (fileNameD p))) (some cp) } := by
        rw [fsCopy]
        have hrd : (logMsg w (.processing (fileNameD p))).files p = some cp := hcp
        rw [hrd]
        rfl
      rw [hfc]
      dsimp only
      rw [← hcp]
    rw [processSongsShuffle, hstep]
    dsimp only
    have hne0 : ∀ q ∈ rest', q ≠ outputDir.push (decFormat i (fileNameD p)) := by
      intro q hq
      exact (hsrc q (List.mem_cons_of_mem _ hq)).2.1 _
    have hsrc2 : ∀ q ∈ rest',
        ((updateFiles w.files (outputDir.push (decFormat i (fileNameD p)))
          (w.files p)) q).isSome = true ∧ (∀ s, q ≠ outputDir.push s) ∧ q ≠ [] := by
      intro q hq
      obtain ⟨h1, h2, h3⟩ := hsrc q (List.mem_cons_of_mem _ hq)
      refine ⟨?_, h2, h3⟩
      rw [updateFiles_ne _ _ _ _ (h2 _)]
      exact h1
    have hfresh2 : ∀ q ∈ shuffleOutPaths outputDir (i + 1) rest',
        (updateFiles w.files (outputDir.push (decFormat i (fileNameD p)))
          (w.files p)) q = none := by
      intro q hq
      obtain ⟨k, hk, hqe⟩ := mem_shuffleOutPaths outputDir rest' (i + 1) q hq
      have hneq : q ≠ outputDir.push (decFormat i (fileNameD p)) := by
        rw [hqe]
        intro hc
        have := push_component_inj _ _ _ hc
        have := decFormat_index_inj this
        omega
      rw [updateFiles_ne _ _ _ _ hneq]
      exact hfresh q (by rw [shuffleOutPaths]; exact List.mem_cons_of_mem _ hq)
    obtain ⟨ha, hb, hc2⟩ := ih (i + 1)
      { logMsg w (.processing (fileNameD p)) with
        files := updateFiles w.files (outputDir.push (decFormat i (fileNameD p)))
          (w.files p) }
      hsrc2 hfresh2 hdirs
    refine ⟨ha, ?_, ?_⟩
    · rw [hb]
      rw [shuffleWrites]
    · exact hc2

/-- C6: in Shuffle mode, starting from an empty output directory with the
input songs present (and outside the output directory), the run of
`output_shuffled_songs` on the shuffled list succeeds with no error and:
each position `k` of the shuffled order yields an output file
`output_dir/"{k} - {original name}"` holding that source's contents; those
output paths are pairwise distinct (every index occurs exactly once); no
other file exists directly under the output directory, so there are exactly
N output files for N songs; the multiset of original file names copied is a
permutation of the input list's file names; and the only directory created
is the output directory itself — no artist subdirectories. -/
theorem shuffle_mode_output (ov : Bool) (outputDir : Path)
    (songs shuffled : List Path) (w : World)
    (hperm : shuffled.Perm songs)
    (hsrc : ∀ p ∈ shuffled,
      (w.files p).isSome = true ∧ (∀ s, p ≠ outputDir.push s) ∧ p ≠ [])
    (hout : ∀ s, w.files (outputDir.push s) = none ∧ w.dirs (outputDir.push s) = false)
    (hfault : w.dirFault outputDir = none) :
    ((output_shuffled_songs ov outputDir shuffled w).2 = none)
    ∧ (∀ k (hk : k < shuffled.length),
        (output_shuffled_songs ov outputDir shuffled w).1.files
            (outputDir.push (decFormat k (fileNameD (shuffled.get ⟨k, hk⟩)))) =
          w.files (shuffled.get ⟨k, hk⟩))
    ∧ (shuffleOutPaths outputDir 0 shuffled).Nodup
    ∧ (∀ s, ((output_shuffled_songs ov outputDir shuffled w).1.files
          (outputDir.push s)).isSome = true →
        outputDir.push s ∈ shuffleOutPaths outputDir 0 shuffled)
    ∧ ((shuffled.map fileNameD).Perm (songs.map fileNameD))
    ∧ (∀ d2, (output_shuffled_songs ov outputDir shuffled w).1.dirs d2 =
        (if d2 = outputDir then true else w.dirs d2)) := by
  obtain ⟨w1, hw1, hfiles1, hdirs1⟩ :
      ∃ w1, create_output_dir w outputDir = .ok w1 ∧ w1.files = w.files ∧
        (∀ d2, w1.dirs d2 = (if d2 = outputDir then true else w.dirs d2)) := by
    rw [create_output_dir, fsCreateDir, hfault]
    by_cases hd : w.dirs outputDir
    · rw [if_pos hd]
      refine ⟨logMsg w .outputDirExists, rfl, rfl, ?_⟩
      intro d2
      by_cases h2 : d2 = outputDir
      · subst h2
        simp [logMsg, hd]
      · simp [logMsg, h2]
    · rw [if_neg hd]
      exact ⟨_, rfl, rfl, fun d2 => rfl⟩
  have hrun : output_shuffled_songs ov outputDir shuffled w =
      processSongsShuffle ov outputDir 0 w1 shuffled := by
    rw [output_shuffled_songs, hw1]
  have hdirs1' : ∀ s, w1.dirs (outputDir.push s) = false := by
    intro s
    rw [hdirs1, if_neg (push_ne_self outputDir s), (hout s).2]
  have hsrc1 : ∀ p ∈ shuffled,
      (w1.files p).isSome = true ∧ (∀ s, p ≠ outputDir.push s) ∧ p ≠ [] := by
    intro p hp
    rw [hfiles1]
    exact hsrc p hp
  have hfresh1 : ∀ q ∈ shuffleOutPaths outputDir 0 shuffled, w1.files q = none := by
    intro q hq
    obtain ⟨k, hk, hqe⟩ := mem_shuffleOutPaths outputDir shuffled 0 q hq
    rw [hfiles1, hqe]
    exact (hout _).1
  obtain ⟨ha, hb, hc⟩ :=
    processSongsShuffle_spec ov outputDir shuffled 0 w1 hsrc1 hfresh1 hdirs1'
  refine ⟨by rw [hrun]; exact ha, ?_, shuffleOutPaths_nodup outputDir shuffled 0, ?_, hperm.map fileNameD, ?_⟩
  · intro k hk
    rw [hrun, hb]
    have hsrcp : ∀ p ∈ shuffled, ∀ s, p ≠ outputDir.push s := by
      intro p hp
      exact (hsrc p hp).2.1
    have h0 := shuffleWrites_at_index outputDir shuffled 0 w1.files hsrcp k hk
    rw [Nat.zero_add] at h0
    rw [h0, hfiles1]
  · intro s hsome
    by_contra hnot
    rw [hrun, hb] at hsome
    rw [shuffleWrites_not_mem outputDir shuffled 0 _ _ hnot] at hsome
    rw [hfiles1, (hout s).1] at hsome
    cases hsome
  · intro d2
    rw [hrun, hc, hdirs1]

/-- C6 (witness): a concrete two-song shuffle run completes with no error
and pairwise distinct indexed output paths. -/
theorem shuffle_mode_output_witness :
    (output_shuffled_songs false ["out"] [["in", "b.mp3"], ["in", "a.mp3"]]
        { files := fun p => if p = ["in", "a.mp3"] then some 1
                   else if p = ["in", "b.mp3"] then some 2 else none,
          dirs := fun _ => false, dirFault := fun _ => none, log := [] }).2 = none
    ∧ (shuffleOutPaths ["out"] 0 [["in", "b.mp3"], ["in", "a.mp3"]]).Nodup := by
  have h := shuffle_mode_output false ["out"]
    [["in", "a.mp3"], ["in", "b.mp3"]] [["in", "b.mp3"], ["in", "a.mp3"]]
    { files := fun p => if p = ["in", "a.mp3"] then some 1
               else if p = ["in", "b.mp3"] then some 2 else none,
      dirs := fun _ => false, dirFault := fun _ => none, log := [] }
    (by decide)
    (by
      intro p hp
      simp only [List.mem_cons, List.not_mem_nil, or_false] at hp
      rcases hp with rfl | rfl
      · refine ⟨rfl, ?_, by decide⟩
        intro s heq
        injection heq with h1 _
        exact absurd h1 (by decide)
      · refine ⟨rfl, ?_, by decide⟩
        intro s heq
        injection heq with h1 _
        exact absurd h1 (by decide))
    (fun s => ⟨rfl, rfl⟩) rfl
  exact ⟨h.1, h.2.2.1⟩

/-- C7 (witness): a concrete run with a failed directory read panics in
each mode. -/
theorem unreadable_input_panics_witness :
    organize_songs false ["in"] ["out"] (Except.error ErrorKind.permissionDenied)
      (fun _ => Except.error Id3Error.io)
      { files := fun _ => none, dirs := fun _ => false,
        dirFault := fun _ => none, log := [] } = RunOutcome.panicked
    ∧ shuffle_songs false ["in"] ["out"] (Except.error ErrorKind.permissionDenied)
      (fun l => l)
      { files := fun _ => none, dirs := fun _ => false,
        dirFault := fun _ => none, log := [] } = RunOutcome.panicked := by
  have h := unreadable_input_panics false ["in"] ["out"] ErrorKind.permissionDenied
    (fun _ => Except.error Id3Error.io) (fun l => l)
    { files := fun _ => none, dirs := fun _ => false,
      dirFault := fun _ => none, log := [] }
  exact ⟨h.1, h.2.1⟩

/-- C4 (witness): a parsed tag with artist `"Queen"` is returned verbatim,
and an I/O parse failure yields the no-artist result. -/
theorem tag_reader_artist_exact_witness :
    get_artist_from_file (Except.ok ⟨some "Queen"⟩) = some "Queen"
    ∧ get_artist_from_file (Except.error Id3Error.io) = none :=
  ⟨(tag_reader_artist_exact (Except.ok ⟨some "Queen"⟩) "Queen").1.mpr rfl,
   (tag_reader_artist_exact (Except.error Id3Error.io) "").2 Id3Error.io⟩

/-- C2 (witness): sanitizing `"AC/DC"` yields `"ACDC"`, and sanitizing it
again changes nothing. -/
theorem sanitizer_exact_and_idempotent_witness :
    sanitize "AC/DC".data = "ACDC".data
    ∧ sanitize (sanitize "AC/DC".data) = sanitize "AC/DC".data := by
  have h := sanitizer_exact_and_idempotent "AC/DC".data
  refine ⟨?_, h.2⟩
  rw [h.1]
  decide
